import Mathlib

/-!
# GTFS viewer — service-calendar evaluation and board filtering, verified

A shallow embedding of the schedule-board core of the `gtfs-viewer` repository
(`src/db/mod.rs`) together with the data model it manipulates.

Conventions of the embedding:
* Calendar dates are integer day indices (`Int`); day `0` is taken to be a
  Monday, so the weekday of day `d` is `d % 7` with `0 = Monday … 6 = Sunday`.
* Date-times (`chrono::NaiveDateTime`) are integer second counts; the date
  component of a date-time `t` is `t.fdiv 86400` (floor), midnight of day `d`
  is `d * 86400`.
* Durations (`chrono::Duration`) are integer second counts;
  `Duration::num_days` truncates toward zero, i.e. `Int.tdiv · 86400`.
* Fallible Rust code returning `Result` becomes `Except`; a Rust *panic*
  (`Option::unwrap` / `Result::unwrap` on the failure case) is modelled by the
  dedicated error type `Panic` below, which is distinct from the typed errors
  the functions return, so that "returns a typed error" and "crashes" remain
  distinguishable statements.
* The SQLite connection is an external collaborator: each embedded operation
  takes the already-materialised list of rows its query would return.
-/

namespace GTFS

/-- `exception_type` of a calendar exception row: the two-valued GTFS tag. -/
inductive ExceptionType
  | Added
  | Removed
  deriving DecidableEq, Repr

/-- A date-specific override of a service's weekly availability
(`ServiceException` in `src/db/types.rs`). -/
structure ServiceException where
  exception_date : Int
  exception_type : ExceptionType
  deriving DecidableEq, Repr

/-- The fixed-size weekly pattern, Monday first (§3 of the spec: a boolean
vector indexed by weekday, order Monday…Sunday matching the raw flags). -/
structure WeekdayPattern where
  monday : Bool
  tuesday : Bool
  wednesday : Bool
  thursday : Bool
  friday : Bool
  saturday : Bool
  sunday : Bool
  deriving DecidableEq, Repr

/-- `Weekday::from_rows`: packs the seven raw flags, supplied Monday…Sunday
(the column order of the `service` table read in `fetch_services`). -/
def WeekdayPattern.from_rows (mo tu we th fr sa su : Bool) : WeekdayPattern :=
  ⟨mo, tu, we, th, fr, sa, su⟩

/-- Whether day `d` (day `0` = Monday) is in the pattern. -/
def WeekdayPattern.test (p : WeekdayPattern) (d : Int) : Bool :=
  match (d % 7).toNat with
  | 0 => p.monday
  | 1 => p.tuesday
  | 2 => p.wednesday
  | 3 => p.thursday
  | 4 => p.friday
  | 5 => p.saturday
  | _ => p.sunday

/-- A service calendar entry (`Service` in `src/db/types.rs`): inclusive
validity window, weekly pattern, and the ordered exception list. -/
structure Service where
  start_date : Int
  end_date : Int
  weekdays : WeekdayPattern
  exceptions : List ServiceException
  deriving DecidableEq, Repr

/-- `Service::new(start_date, end_date, operating_weekdays)`: a fresh service
with an empty exception list (exceptions are pushed afterwards). -/
def Service.new (sd ed : Int) (w : WeekdayPattern) : Service :=
  ⟨sd, ed, w, []⟩

/-- Modelled from the spec: `Service::is_available` lives in
`src/db/types.rs`, which is not among the reviewed sources.  §4.2: an
exception dated `d` decides availability on its own (last one wins when the
same date appears more than once), otherwise the result is the validity-window
test conjoined with the weekday-pattern test. -/
def Service.is_available (s : Service) (d : Int) : Bool :=
  match (s.exceptions.filter (fun e => e.exception_date == d)).getLast? with
  | some e => e.exception_type == ExceptionType.Added
  | none =>
      decide (s.start_date ≤ d) && decide (d ≤ s.end_date) && s.weekdays.test d

/-- Seconds per day, the divisor of all day-rollover arithmetic. -/
def secondsPerDay : Int := 86400

/-- `chrono::Duration::num_days`: whole days, truncated toward zero. -/
def durNumDays (d : Int) : Int := d.tdiv secondsPerDay

/-- `chrono::NaiveDateTime::date`: the day index containing second count
`t` (floor division). -/
def dtDate (t : Int) : Int := t.fdiv secondsPerDay

/-- The two board kinds (`BoardType` in `src/db/types.rs`). -/
inductive BoardType
  | Arrival
  | Departure
  deriving DecidableEq, Repr

/-- A mapped stop-event row (`Stop` in `src/db/types.rs`): the two offsets are
durations past midnight of the service-day, in seconds. -/
structure Stop where
  arrival_time : Int
  departure_time : Int
  trip_id : Nat
  short_name : String
  service_id : Nat
  head_sign : String
  deriving DecidableEq, Repr

/-- The offset the board type selects (§3/§4.3: `arrival_offset` for
*Arrival*, `departure_offset` for *Departure*). -/
def Stop.offset (s : Stop) (bt : BoardType) : Int :=
  match bt with
  | .Arrival => s.arrival_time
  | .Departure => s.departure_time

/-- Modelled from the spec: `service_day_of` (§4.3) — the code for the
adjuster lives in `src/db/types.rs`, not among the reviewed sources.  The
service-day of a stop-event relative to reference date `refDate` is the
reference date minus the whole days of the selected offset. -/
def service_day_of (s : Stop) (refDate : Int) (bt : BoardType) : Int :=
  refDate - durNumDays (s.offset bt)

/-- Modelled from the spec: `Stop::get_adjusted_dt` (§4.3) — midnight of the
service-day plus the selected offset, the single absolute time used for both
filtering and ordering. -/
def Stop.get_adjusted_dt (s : Stop) (bt : BoardType) (dt : Int) : Int :=
  service_day_of s (dtDate dt) bt * secondsPerDay + s.offset bt

/-- Modelled from the spec: `Stop::is_after_adjusted_time` (§4.4 horizon
filter) — keep a stop-event iff its adjusted timestamp is not strictly before
the reference timestamp. -/
def Stop.is_after_adjusted_time (s : Stop) (bt : BoardType) (dt : Int) : Bool :=
  decide (dt ≤ s.get_adjusted_dt bt dt)

/-- Typed parse failure carrying the offending string (§7: a `ParseError`
carrying the string that could not be parsed). -/
inductive ParseError
  | badDate (s : String)
  | badTime (s : String)
  deriving DecidableEq, Repr

instance {ε α : Type} [DecidableEq ε] [DecidableEq α] : DecidableEq (Except ε α) :=
  fun x y =>
    match x, y with
    | .ok a, .ok b =>
        match decEq a b with
        | isTrue h => isTrue (h ▸ rfl)
        | isFalse h => isFalse (fun hh => h (Except.ok.inj hh))
    | .error e, .error f =>
        match decEq e f with
        | isTrue h => isTrue (h ▸ rfl)
        | isFalse h => isFalse (fun hh => h (Except.error.inj hh))
    | .ok _, .error _ => isFalse (fun hh => Except.noConfusion hh)
    | .error _, .ok _ => isFalse (fun hh => Except.noConfusion hh)

/-- The numeric value of a decimal digit character, `none` otherwise. -/
def digitVal? (c : Char) : Option Nat :=
  if 48 ≤ c.toNat ∧ c.toNat ≤ 57 then some (c.toNat - 48) else none

/-- Accumulating decimal read of a digit run. -/
def digitsGo (acc : Nat) : List Char → Option Nat
  | [] => some acc
  | c :: rest =>
      match digitVal? c with
      | some v => digitsGo (acc * 10 + v) rest
      | none => none

/-- A non-empty all-digit character run read as a decimal number. -/
def digitsToNat? : List Char → Option Nat
  | [] => none
  | cs => digitsGo 0 cs

/-- Modelled from the spec: `str_to_date` lives in `src/db/util.rs`, which is
not among the reviewed sources; §1 declares only its failure mode
contract-relevant.  Dates are abstracted to integer day indices: a string of
decimal digits parses to its numeric value, anything else fails with a
`ParseError` carrying the offending string. -/
def str_to_date (s : String) : Except ParseError Int :=
  match digitsToNat? s.toList with
  | some n => .ok (Int.ofNat n)
  | none => .error (.badDate s)

/-- Split a character run at every `:`. -/
def splitOnColon : List Char → List (List Char)
  | [] => [[]]
  | c :: rest =>
      match splitOnColon rest, decide (c = ':') with
      | r, true => [] :: r
      | [], false => [[c]]
      | g :: gs, false => (c :: g) :: gs

/-- A 2-digit minute/second field of a `HH:MM:SS` string. -/
def twoDigitField (cs : List Char) : Option Nat :=
  if cs.length = 2 then digitsToNat? cs else none

/-- A 1- or 2-digit hour field, unbounded above 23 (the regex at
`src/db/mod.rs:62` allows `\d{1,2}` hours). -/
def hourField (cs : List Char) : Option Nat :=
  if cs.length = 1 ∨ cs.length = 2 then digitsToNat? cs else none

/-- Modelled from the spec: `str_to_dur` lives in `src/db/util.rs`, which is
not among the reviewed sources.  It extracts hours, minutes and seconds with
the regex of `src/db/mod.rs:62` and yields the duration in seconds; anything
that does not match fails with a `ParseError` carrying the offending
string. -/
def str_to_dur (s : String) : Except ParseError Int :=
  match splitOnColon s.toList with
  | [h, m, sec] =>
      match hourField h, twoDigitField m, twoDigitField sec with
      | some hh, some mm, some ss =>
          .ok (Int.ofNat (hh * 3600 + mm * 60 + ss))
      | _, _, _ => .error (.badTime s)
  | _ => .error (.badTime s)

/-- A raw row returned by `STOP_QUERY` (column order of `src/db/mod.rs:20`):
arrival and departure time strings, trip id, service id, display names. -/
structure StopRow where
  arrival_time : String
  departure_time : String
  trip_id : Nat
  service_id : Nat
  short_name : String
  head_sign : String
  deriving DecidableEq, Repr

/-- A Rust *panic* (process abort) of the board pipeline.  This is **not** a
typed error returned to the caller: `fetch_stops` in `src/db/mod.rs` calls
`unwrap()` in two places, and a value of this type records which unwrap
fired. -/
inductive Panic
  | unwrapErr (e : ParseError)
  | noServiceEntry (sid : Nat)
  deriving DecidableEq, Repr

/-- `GTFSDatabase::map_stop` (`src/db/mod.rs:113`): both time strings are
parsed with `str_to_dur(...).unwrap()`, so a malformed string panics. -/
def map_stop (row : StopRow) : Except Panic Stop :=
  match str_to_dur row.arrival_time with
  | .error e => .error (.unwrapErr e)
  | .ok a =>
      match str_to_dur row.departure_time with
      | .error e => .error (.unwrapErr e)
      | .ok d =>
          .ok { arrival_time := a, departure_time := d,
                trip_id := row.trip_id, short_name := row.short_name,
                service_id := row.service_id, head_sign := row.head_sign }

/-- The service index: `HashMap<u16, Service>` modelled as an association
list with unique keys. -/
abbrev ServiceMap : Type := List (Nat × Service)

/-- `HashMap::get`. -/
def mapLookup (m : ServiceMap) (k : Nat) : Option Service :=
  match m with
  | [] => none
  | p :: rest => if p.1 = k then some p.2 else mapLookup rest k

/-- `HashMap::contains_key`. -/
def mapContains (m : ServiceMap) (k : Nat) : Bool :=
  (mapLookup m k).isSome

/-- `HashMap::get_mut` followed by an in-place update of the entry. -/
def mapModify (m : ServiceMap) (k : Nat) (f : Service → Service) : ServiceMap :=
  match m with
  | [] => []
  | p :: rest =>
      if p.1 = k then (p.1, f p.2) :: rest else p :: mapModify rest k f

/-- The lazy iterator chain of `fetch_stops` (`src/db/mod.rs:86`): per row,
`map_stop` (panics on a malformed time string), then filter F0 — availability
of the service looked up by `unwrap()` (panics when the id is absent) on the
day `date_time.date() - Duration::days(s.arrival_time.num_days())`, note:
the **arrival** offset, whatever the board type — then filter F1, the
horizon filter. -/
def collectStops (services : ServiceMap) (bt : BoardType) (dt : Int) :
    List StopRow → Except Panic (List Stop)
  | [] => .ok []
  | row :: rest =>
      match map_stop row with
      | .error p => .error p
      | .ok s =>
          match mapLookup services s.service_id with
          | none => .error (.noServiceEntry s.service_id)
          | some sv =>
              match collectStops services bt dt rest with
              | .error p => .error p
              | .ok l =>
                  if sv.is_available (dtDate dt - durNumDays s.arrival_time)
                      && s.is_after_adjusted_time bt dt
                  then .ok (s :: l)
                  else .ok l

/-- The comparator of the final `sort_by` (`src/db/mod.rs:99`): ascending by
adjusted timestamp, no secondary key. -/
def stopLE (bt : BoardType) (dt : Int) (a b : Stop) : Prop :=
  a.get_adjusted_dt bt dt ≤ b.get_adjusted_dt bt dt

instance (bt : BoardType) (dt : Int) : DecidableRel (stopLE bt dt) :=
  fun a b =>
    inferInstanceAs (Decidable (a.get_adjusted_dt bt dt ≤ b.get_adjusted_dt bt dt))

/-- `GTFSDatabase::fetch_stops` (`src/db/mod.rs:78`): an empty stop id
short-circuits to an empty board; otherwise the rows of `STOP_QUERY` (passed
in already materialised, the connection being external) are mapped, filtered
and stably sorted by adjusted timestamp.  Rust `Vec::sort_by` is a stable
sort, embedded as insertion sort (any two stable sorts by the same comparator
agree). -/
def fetch_stops (services : ServiceMap) (rows : List StopRow)
    (stop_id : String) (bt : BoardType) (dt : Int) :
    Except Panic (List Stop) :=
  if stop_id.isEmpty then .ok []
  else
    match collectStops services bt dt rows with
    | .error p => .error p
    | .ok stops => .ok (stops.insertionSort (stopLE bt dt))

/-- Row mapping alone (no filtering): the `map` stage of the iterator chain,
stopping at the first panic. -/
def mapStops : List StopRow → Except Panic (List Stop)
  | [] => .ok []
  | r :: rest =>
      match map_stop r with
      | .error p => .error p
      | .ok s =>
          match mapStops rest with
          | .error p => .error p
          | .ok l => .ok (s :: l)

/-- The combined keep-predicate of the two filters F0 and F1 of
`fetch_stops`, as a function of the mapped stop-event (false when the service
id is absent, a case `fetch_stops` turns into a panic instead). -/
def keepStop (services : ServiceMap) (bt : BoardType) (dt : Int) (s : Stop) : Bool :=
  match mapLookup services s.service_id with
  | some sv =>
      sv.is_available (dtDate dt - durNumDays s.arrival_time)
        && s.is_after_adjusted_time bt dt
  | none => false

/-- A raw row returned by `SERVICE_QUERY` (`src/db/mod.rs:15`): the base
calendar fields of the service joined with at most one exception row;
`service_date` is `none` when the LEFT JOIN produced no exception
(`row.get::<usize, String>(10)` returns `Err` on NULL). -/
structure ServiceRow where
  service_id : Nat
  monday : Bool
  tuesday : Bool
  wednesday : Bool
  thursday : Bool
  friday : Bool
  saturday : Bool
  sunday : Bool
  start_date : String
  end_date : String
  service_date : Option String
  exception_type : ExceptionType
  deriving DecidableEq, Repr

/-- The `Service::new(...)` call of `fetch_services` for one row: parse
`start_date` then `end_date` (each `?`-propagated) and pack the seven weekday
flags. -/
def baseService (r : ServiceRow) : Except ParseError Service :=
  match str_to_date r.start_date with
  | .error e => .error e
  | .ok sd =>
      match str_to_date r.end_date with
      | .error e => .error e
      | .ok ed =>
          .ok (Service.new sd ed (WeekdayPattern.from_rows
            r.monday r.tuesday r.wednesday r.thursday
            r.friday r.saturday r.sunday))

/-- The `exception` binding of the loop body (`src/db/mod.rs:139`): a NULL
`service_date` column yields no exception, a non-null one is parsed with `?`
(a malformed date string aborts `fetch_services` on the spot). -/
def rowException (r : ServiceRow) : Except ParseError (Option ServiceException) :=
  match r.service_date with
  | some x =>
      match str_to_date x with
      | .error e => .error e
      | .ok d => .ok (some ⟨d, r.exception_type⟩)
  | none => .ok none

/-- The `!map.contains_key` block (`src/db/mod.rs:149`): only a fresh
service id parses its base fields and inserts a service. -/
def insertIfNew (m : ServiceMap) (r : ServiceRow) : Except ParseError ServiceMap :=
  if mapContains m r.service_id then .ok m
  else
    match baseService r with
    | .error e => .error e
    | .ok sv => .ok (m ++ [(r.service_id, sv)])

/-- The `exceptions.push` at the end of the loop body (`src/db/mod.rs:170`). -/
def pushException (m : ServiceMap) (sid : Nat) :
    Option ServiceException → ServiceMap
  | some e => mapModify m sid (fun sv => { sv with exceptions := sv.exceptions ++ [e] })
  | none => m

/-- One iteration of the `while let` loop of `fetch_services`
(`src/db/mod.rs:135`): first the exception column is read and parsed (`?`
propagates a `ParseError`), then — only if the id is new — the base fields
are parsed and the service inserted, and finally the exception, if any, is
pushed onto that service's list. -/
def applyServiceRow (m : ServiceMap) (r : ServiceRow) :
    Except ParseError ServiceMap :=
  match rowException r with
  | .error e => .error e
  | .ok exc =>
      match insertIfNew m r with
      | .error e => .error e
      | .ok m1 => .ok (pushException m1 r.service_id exc)

/-- The row loop of `fetch_services`, threading the map accumulator. -/
def fetchServicesGo (m : ServiceMap) :
    List ServiceRow → Except ParseError ServiceMap
  | [] => .ok m
  | r :: rest =>
      match applyServiceRow m r with
      | .error e => .error e
      | .ok m2 => fetchServicesGo m2 rest

/-- `fetch_services` (`src/db/mod.rs:127`): builds the service index from the
rows of `SERVICE_QUERY`, starting from an empty map. -/
def fetch_services (rows : List ServiceRow) : Except ParseError ServiceMap :=
  fetchServicesGo [] rows

/-- The first row carrying a given service id, whose base fields alone build
the service. -/
def firstRowFor (sid : Nat) (rows : List ServiceRow) : Option ServiceRow :=
  rows.find? (fun r => r.service_id = sid)

/-- The exception list a service id accumulates: one parsed exception per row
of that id whose exception column is non-null, in row order. -/
def excsFor (sid : Nat) : List ServiceRow → Except ParseError (List ServiceException)
  | [] => .ok []
  | r :: rest =>
      if r.service_id = sid then
        match r.service_date with
        | some x =>
            match str_to_date x with
            | .error e => .error e
            | .ok d =>
                match excsFor sid rest with
                | .error e => .error e
                | .ok es => .ok (⟨d, r.exception_type⟩ :: es)
        | none => excsFor sid rest
      else excsFor sid rest

/-- A raw row of the `stop` table consulted by the station query. -/
structure StopTableRow where
  stop_id : Nat
  name : List Char
  deriving DecidableEq, Repr

/-- `Station` in `src/db/types.rs`: one result row of the station query. -/
structure Station where
  stop_id : Nat
  name : List Char
  deriving DecidableEq, Repr

/-- The WHERE clause that `get_station_query` (`src/db/mod.rs:36`) builds: for
empty input `name LIKE '%Hbf' OR name LIKE '%Hauptbahnhof'`, otherwise
`name LIKE '%input%'`.  SQL execution is an external collaborator; the LIKE
patterns `'%X'` and `'%X%'` are modelled as suffix and substring match. -/
def station_query_pred (input : String) (n : List Char) : Bool :=
  if input.isEmpty then
    List.isSuffixOf "Hbf".toList n || List.isSuffixOf "Hauptbahnhof".toList n
  else decide (List.IsInfix input.toList n)

/-- The `stop_id`s of all rows bearing a given name. -/
def idsFor (n : List Char) (tbl : List StopTableRow) : List Nat :=
  (tbl.filter (fun r => r.name = n)).map (fun r => r.stop_id)

/-- `MIN(stop_id)` over a group (`0` on the empty group, which `GROUP BY`
never produces). -/
def minId : List Nat → Nat
  | [] => 0
  | i :: rest => rest.foldl Nat.min i

/-- `fetch_stations` (`src/db/mod.rs:66`) composed with the relational
semantics of its query `SELECT MIN(stop_id), name FROM stop WHERE name LIKE …
GROUP BY name`: filter the table, group the surviving rows by name (groups
listed in first-occurrence order; SQL leaves the output order unspecified)
and take the least stop id of each group. -/
def fetch_stations (input : String) (tbl : List StopTableRow) : List Station :=
  let surviving := tbl.filter (fun r => station_query_pred input r.name)
  ((surviving.map (fun r => r.name)).dedup).map
    (fun n => { stop_id := minId (idsFor n surviving), name := n })

/-! ## Concrete inputs used by witnesses and counterexamples -/

/-- Every weekday set. -/
def allWeek : WeekdayPattern := ⟨true, true, true, true, true, true, true⟩

/-- Monday–Friday only (§8's example Service A). -/
def weekdaysMF : WeekdayPattern := ⟨true, true, true, true, true, false, false⟩

/-- §8's Service A: Mon–Fri, one-year window, no exceptions (day 0 is a
Monday). -/
def svA : Service := ⟨0, 363, weekdaysMF, []⟩

/-- Service A plus an *Added* exception dated outside the window. -/
def svB : Service := ⟨0, 363, weekdaysMF, [⟨370, .Added⟩]⟩

/-- A stop-event with a next-day arrival offset (23:50) and a rolled-over
departure offset (24:10): the two offsets straddle a day boundary. -/
def rowC2 : StopRow := ⟨"23:50:00", "24:10:00", 1, 1, "S1", "X"⟩

/-- `rowC2` after `map_stop`. -/
def stopC2 : Stop := ⟨85800, 87000, 1, "S1", 1, "X"⟩

/-- Valid on days 10–20 only. -/
def svC2 : Service := ⟨10, 20, allWeek, []⟩

/-- Valid on days 5–9 only. -/
def svC5 : Service := ⟨5, 9, allWeek, []⟩

/-- Like `rowC2` under another trip and service id. -/
def rowC5 : StopRow := ⟨"23:50:00", "24:10:00", 2, 2, "S2", "Y"⟩

/-- `rowC5` after `map_stop`. -/
def stopC5 : Stop := ⟨85800, 87000, 2, "S2", 2, "Y"⟩

/-- An always-running service for the error-path inputs. -/
def svC6 : Service := ⟨0, 100, allWeek, []⟩

/-- A well-formed stop row referencing service id 7. -/
def rowC6 : StopRow := ⟨"08:00:00", "08:05:00", 7, 7, "RB", "Somewhere"⟩

/-- A stop row whose arrival time string does not match the time pattern. -/
def rowC7 : StopRow := ⟨"26:0a:00", "08:05:00", 3, 1, "RB", "X"⟩

/-- A calendar row whose `start_date` string is malformed. -/
def rowC7s : ServiceRow :=
  ⟨4, true, true, true, true, true, true, true, "20XX", "200", none, .Added⟩

/-- Well-formed calendar rows: id 1 twice (first with a null exception
column, then with an exception and different base fields) and id 2 once. -/
def rowsC9 : List ServiceRow :=
  [⟨1, true, true, true, true, true, false, false, "100", "200", none, .Added⟩,
   ⟨1, false, false, false, false, false, true, true, "999", "998",
     some "150", .Removed⟩,
   ⟨2, true, false, true, false, true, false, true, "50", "60",
     some "55", .Added⟩]

/-- The index `fetch_services` builds from `rowsC9`. -/
def mC9 : ServiceMap :=
  [(1, ⟨100, 200, weekdaysMF, [⟨150, .Removed⟩]⟩),
   (2, ⟨50, 60, ⟨true, false, true, false, true, false, true⟩, [⟨55, .Added⟩]⟩)]

/-- A stop-event whose departure offset is 25:30:00 (§8's rollover
example). -/
def stop4 : Stop := ⟨3600, 91800, 1, "T", 1, "H"⟩

/-- Two stop rows of the same service with identical time strings — a tie on
the adjusted timestamp. -/
def rowW1 : StopRow := ⟨"08:00:00", "09:15:00", 1, 1, "A", "H1"⟩

/-- Second of the tied pair, supplied after `rowW1`. -/
def rowW2 : StopRow := ⟨"08:00:00", "09:15:00", 2, 1, "B", "H2"⟩

/-- `rowW1` after `map_stop`. -/
def stopW1 : Stop := ⟨28800, 33300, 1, "A", 1, "H1"⟩

/-- `rowW2` after `map_stop`. -/
def stopW2 : Stop := ⟨28800, 33300, 2, "B", 1, "H2"⟩

/-- A three-row `stop` table: a duplicated main-station name and one other
stop. -/
def tblW : List StopTableRow :=
  [⟨5, "A Hbf".toList⟩, ⟨3, "A Hbf".toList⟩, ⟨9, "B".toList⟩]

/-! ## Board pipeline characterization -/

/-- Successful `collectStops` runs are exactly a row-mapping pass followed by
the two filters: every mapped stop-event had a service entry, and the output
is the filtered mapped list in row order. -/
theorem collectStops_ok {services : ServiceMap} {bt : BoardType} {dt : Int}
    {rows : List StopRow} {l : List Stop}
    (h : collectStops services bt dt rows = .ok l) :
    ∃ ms, mapStops rows = .ok ms ∧
      (∀ s ∈ ms, (mapLookup services s.service_id).isSome = true) ∧
      l = ms.filter (keepStop services bt dt) := by
  induction rows generalizing l with
  | nil =>
      refine ⟨[], rfl, by simp, ?_⟩
      simp only [collectStops] at h
      cases h
      rfl
  | cons r rest ih =>
      simp only [collectStops] at h
      cases hm : map_stop r with
      | error p => rw [hm] at h; cases h
      | ok s =>
          rw [hm] at h
          dsimp only [] at h
          cases hl : mapLookup services s.service_id with
          | none => rw [hl] at h; dsimp only [] at h; cases h
          | some sv =>
              rw [hl] at h
              dsimp only [] at h
              cases hc : collectStops services bt dt rest with
              | error p => rw [hc] at h; cases h
              | ok l2 =>
                  rw [hc] at h
                  dsimp only [] at h
                  obtain ⟨ms, h1, h2, h3⟩ := ih hc
                  refine ⟨s :: ms, ?_, ?_, ?_⟩
                  · simp only [mapStops, hm, h1]
                  · intro x hx
                    rcases List.mem_cons.mp hx with rfl | hx
                    · simp [hl]
                    · exact h2 x hx
                  · have hks : keepStop services bt dt s =
                        (sv.is_available (dtDate dt - durNumDays s.arrival_time)
                          && s.is_after_adjusted_time bt dt) := by
                      simp [keepStop, hl]
                    by_cases hk : (sv.is_available (dtDate dt - durNumDays s.arrival_time)
                        && s.is_after_adjusted_time bt dt) = true
                    · rw [if_pos hk] at h
                      cases h
                      simp [List.filter_cons, hks, hk, h3]
                    · rw [if_neg hk] at h
                      cases h
                      simp only [Bool.not_eq_true] at hk
                      simp [List.filter_cons, hks, hk, h3]

/-- A successful `fetch_stops` call with a non-empty stop id is the filtered
mapped row list, stably sorted by adjusted timestamp. -/
theorem fetch_stops_ok {services : ServiceMap} {rows : List StopRow}
    {stop_id : String} {bt : BoardType} {dt : Int} {l : List Stop}
    (hne : stop_id.isEmpty = false)
    (h : fetch_stops services rows stop_id bt dt = .ok l) :
    ∃ ms, mapStops rows = .ok ms ∧
      (∀ s ∈ ms, (mapLookup services s.service_id).isSome = true) ∧
      l = (ms.filter (keepStop services bt dt)).insertionSort (stopLE bt dt) := by
  unfold fetch_stops at h
  simp only [hne, Bool.false_eq_true, if_false] at h
  cases hc : collectStops services bt dt rows with
  | error p => rw [hc] at h; cases h
  | ok stops =>
      rw [hc] at h
      cases h
      obtain ⟨ms, h1, h2, h3⟩ := collectStops_ok hc
      exact ⟨ms, h1, h2, by rw [h3]⟩

/-! ## Claims -/

/-- C1: for a date matched by no exception, `is_available` is exactly the
validity-window test conjoined with the weekday-pattern test; for a date
matched by an exception `e` (unique for that date), `is_available` equals
`e.exception_type == Added`, with no reference to the validity window
(exceptions are not clipped by it). -/
theorem C1_availability (s : Service) (d : Int) :
    ((∀ e ∈ s.exceptions, e.exception_date ≠ d) →
      s.is_available d =
        (decide (s.start_date ≤ d) && decide (d ≤ s.end_date) && s.weekdays.test d)) ∧
    (∀ e ∈ s.exceptions, e.exception_date = d →
      (∀ e2 ∈ s.exceptions, e2.exception_date = d → e2 = e) →
      s.is_available d = (e.exception_type == ExceptionType.Added)) := by
  constructor
  · intro hno
    have hnil : s.exceptions.filter (fun e => e.exception_date == d) = [] := by
      rw [List.filter_eq_nil_iff]
      intro e he
      simpa using hno e he
    simp [Service.is_available, hnil]
  · intro e he hd huniq
    have heF : e ∈ s.exceptions.filter (fun e => e.exception_date == d) :=
      List.mem_filter.mpr ⟨he, by simp [hd]⟩
    obtain ⟨el, hel⟩ : ∃ el,
        (s.exceptions.filter (fun e => e.exception_date == d)).getLast? = some el := by
      cases hF2 : (s.exceptions.filter (fun e => e.exception_date == d)).getLast? with
      | none =>
          rw [List.getLast?_eq_none_iff] at hF2
          exact absurd (hF2 ▸ heF) (List.not_mem_nil e)
      | some x => exact ⟨x, rfl⟩
    have helF := List.mem_of_mem_getLast? hel
    obtain ⟨helmem, heldate⟩ := List.mem_filter.mp helF
    have hele : el = e := huniq el helmem (by simpa using heldate)
    simp only [Service.is_available, hel, hele]

/-- Witness for C1 at §8's examples: day 0 is a Monday inside Service A's
window, and day 370 lies outside the window yet is activated by an *Added*
exception. -/
theorem C1_witness :
    (svA.is_available 0 =
      (decide (svA.start_date ≤ 0) && decide ((0 : Int) ≤ svA.end_date)
        && svA.weekdays.test 0)) ∧
    svB.is_available 370 =
      ((ServiceException.mk 370 .Added).exception_type == ExceptionType.Added) :=
  ⟨(C1_availability svA 0).1 (by decide),
   (C1_availability svB 370).2 ⟨370, .Added⟩ (by decide) (by decide) (by decide)⟩

/-- C2 as stated is false: on a Departure board the availability filter uses
the arrival offset's whole-day count, so a stop-event arriving at 23:50 and
departing at 24:10 is kept although its service (valid from day 10 only) is
not available on the departure-based service-day 9. -/
theorem C2_counterexample :
    fetch_stops [(1, svC2)] [rowC2] "x" .Departure 864000 = .ok [stopC2] ∧
    mapLookup [(1, svC2)] stopC2.service_id = some svC2 ∧
    svC2.is_available (service_day_of stopC2 (dtDate 864000) .Departure) = false := by
  decide

/-- C2 amended: every stop-event of a successful board has its adjusted
timestamp at or after the reference timestamp, and its service is available
on the **arrival**-offset-based service-day (the day the code actually
checks, for both board types). -/
theorem C2_amended (services : ServiceMap) (rows : List StopRow)
    (stop_id : String) (bt : BoardType) (dt : Int) (l : List Stop)
    (hne : stop_id.isEmpty = false)
    (h : fetch_stops services rows stop_id bt dt = .ok l) :
    ∀ s ∈ l, dt ≤ s.get_adjusted_dt bt dt ∧
      ∃ sv, mapLookup services s.service_id = some sv ∧
        sv.is_available (dtDate dt - durNumDays s.arrival_time) = true := by
  obtain ⟨ms, h1, h2, h3⟩ := fetch_stops_ok hne h
  intro s hs
  rw [h3, List.mem_insertionSort] at hs
  obtain ⟨hmem, hkeep⟩ := List.mem_filter.mp hs
  unfold keepStop at hkeep
  cases hl : mapLookup services s.service_id with
  | none => rw [hl] at hkeep; cases hkeep
  | some sv =>
      rw [hl] at hkeep
      dsimp only [] at hkeep
      obtain ⟨ha, ht⟩ := Bool.and_eq_true_iff.mp hkeep
      refine ⟨?_, sv, rfl, ha⟩
      simpa [Stop.is_after_adjusted_time] using ht

/-- Witness for the amended C2 at the concrete board of the
counterexample. -/
theorem C2_witness :
    (864000 : Int) ≤ stopC2.get_adjusted_dt .Departure 864000 ∧
    ∃ sv, mapLookup [(1, svC2)] stopC2.service_id = some sv ∧
      sv.is_available (dtDate 864000 - durNumDays stopC2.arrival_time) = true :=
  C2_amended [(1, svC2)] [rowC2] "x" .Departure 864000 [stopC2] (by decide) (by decide)
    stopC2 (by decide)

/-- C3: the returned board is sorted non-decreasing by adjusted timestamp,
and events with equal adjusted timestamps keep the relative order in which
they were supplied to the sort (the filtered list in row order): for every
key value, filtering the output by that key gives exactly the corresponding
filtering of the pre-sort list. -/
theorem C3_sorted_stable (services : ServiceMap) (rows : List StopRow)
    (stop_id : String) (bt : BoardType) (dt : Int) (l : List Stop)
    (h : fetch_stops services rows stop_id bt dt = .ok l) :
    List.Sorted (stopLE bt dt) l ∧
    (stop_id.isEmpty = false →
      ∃ pre, collectStops services bt dt rows = .ok pre ∧
        ∀ k : Int, l.filter (fun s => s.get_adjusted_dt bt dt == k) =
          pre.filter (fun s => s.get_adjusted_dt bt dt == k)) := by
  haveI inst1 : IsTotal Stop (stopLE bt dt) := ⟨fun a b => Int.le_total _ _⟩
  haveI inst2 : IsTrans Stop (stopLE bt dt) := ⟨fun a b c hab hbc => le_trans hab hbc⟩
  by_cases he : stop_id.isEmpty = true
  · unfold fetch_stops at h
    rw [if_pos he] at h
    cases h
    exact ⟨List.sorted_nil, fun h2 => absurd he (by simp [h2])⟩
  · have hne : stop_id.isEmpty = false := by simpa using he
    unfold fetch_stops at h
    simp only [hne, Bool.false_eq_true, if_false] at h
    cases hc : collectStops services bt dt rows with
    | error p => rw [hc] at h; cases h
    | ok pre =>
        rw [hc] at h
        cases h
        constructor
        · exact List.sorted_insertionSort _ _
        · intro _
          refine ⟨pre, rfl, ?_⟩
          intro k
          have hcsub : (pre.filter (fun s => s.get_adjusted_dt bt dt == k)).Sublist pre :=
            List.filter_sublist _
          have hcpair : (pre.filter (fun s => s.get_adjusted_dt bt dt == k)).Pairwise
              (stopLE bt dt) := by
            apply List.pairwise_of_forall_mem_list
            intro x hx y hy
            have hxk := (List.mem_filter.mp hx).2
            have hyk := (List.mem_filter.mp hy).2
            have hxk2 : x.get_adjusted_dt bt dt = k := by simpa using hxk
            have hyk2 : y.get_adjusted_dt bt dt = k := by simpa using hyk
            unfold stopLE
            rw [hxk2, hyk2]
          have hsub : (pre.filter (fun s => s.get_adjusted_dt bt dt == k)).Sublist
              (List.insertionSort (stopLE bt dt) pre) :=
            List.sublist_insertionSort hcpair hcsub
          have hfc : (pre.filter (fun s => s.get_adjusted_dt bt dt == k)).filter
              (fun s => s.get_adjusted_dt bt dt == k) =
              pre.filter (fun s => s.get_adjusted_dt bt dt == k) :=
            List.filter_eq_self.mpr (fun a ha => (List.mem_filter.mp ha).2)
          have hsub2 : (pre.filter (fun s => s.get_adjusted_dt bt dt == k)).Sublist
              ((List.insertionSort (stopLE bt dt) pre).filter
                (fun s => s.get_adjusted_dt bt dt == k)) := by
            rw [← hfc]
            exact hsub.filter _
          have hlen : ((List.insertionSort (stopLE bt dt) pre).filter
              (fun s => s.get_adjusted_dt bt dt == k)).length =
              (pre.filter (fun s => s.get_adjusted_dt bt dt == k)).length :=
            ((List.perm_insertionSort (stopLE bt dt) pre).filter _).length_eq
          exact (hsub2.eq_of_length hlen.symm).symm

/-- Witness for C3 on a board with two tied stop-events supplied as
`rowW1` before `rowW2`. -/
theorem C3_witness :
    List.Sorted (stopLE .Departure 864000) [stopW1, stopW2] ∧
    (("x" : String).isEmpty = false →
      ∃ pre, collectStops [(1, svC2)] .Departure 864000 [rowW1, rowW2] = .ok pre ∧
        ∀ k : Int,
          [stopW1, stopW2].filter (fun s => s.get_adjusted_dt .Departure 864000 == k) =
            pre.filter (fun s => s.get_adjusted_dt .Departure 864000 == k)) :=
  C3_sorted_stable [(1, svC2)] [rowW1, rowW2] "x" .Departure 864000 [stopW1, stopW2]
    (by decide)

/-- C4: the service-day is the reference date minus `floor(offset / 24h)`
(for the non-negative offsets the data model guarantees), the adjusted
timestamp is midnight of the service-day plus the selected offset, and a
25:30:00 departure offset against reference day `D` yields service-day
`D − 1` and the adjusted timestamp 01:30 of day `D`. -/
theorem C4_adjusted (s : Stop) (bt : BoardType) (dt D : Int)
    (hnn : 0 ≤ s.offset bt) :
    service_day_of s (dtDate dt) bt = dtDate dt - (s.offset bt).fdiv 86400 ∧
    s.get_adjusted_dt bt dt = service_day_of s (dtDate dt) bt * 86400 + s.offset bt ∧
    (s.departure_time = 91800 →
      service_day_of s D .Departure = D - 1 ∧
      (∀ t : Int, dtDate t = D →
        s.get_adjusted_dt .Departure t = D * 86400 + 5400)) := by
  refine ⟨?_, rfl, ?_⟩
  · unfold service_day_of durNumDays secondsPerDay
    rw [Int.fdiv_eq_tdiv hnn (by norm_num)]
  · intro h
    have h1 : Int.tdiv 91800 86400 = 1 := by decide
    refine ⟨?_, ?_⟩
    · simp only [service_day_of, durNumDays, secondsPerDay, Stop.offset, h, h1]
    · intro t ht
      simp only [Stop.get_adjusted_dt, service_day_of, durNumDays, secondsPerDay,
        Stop.offset, h, h1, ht]
      omega

/-- Witness for C4 at a concrete stop-event with departure offset 25:30:00
and reference day 10. -/
theorem C4_witness :
    service_day_of stop4 (dtDate 864000) .Departure =
      dtDate 864000 - (stop4.offset .Departure).fdiv 86400 ∧
    stop4.get_adjusted_dt .Departure 864000 =
      service_day_of stop4 (dtDate 864000) .Departure * 86400 +
        stop4.offset .Departure ∧
    (stop4.departure_time = 91800 →
      service_day_of stop4 10 .Departure = 10 - 1 ∧
      (∀ t : Int, dtDate t = 10 →
        stop4.get_adjusted_dt .Departure t = 10 * 86400 + 5400)) :=
  C4_adjusted stop4 .Departure 864000 10 (by decide)

/-- C5 as stated is false: the availability filter never consults the
departure offset.  On a Departure board, a stop-event departing at 24:10
whose service is available on the departure-based service-day 9 (and which
passes the horizon filter) is nevertheless dropped, because the service is
not available on the arrival-based day 10. -/
theorem C5_counterexample :
    fetch_stops [(2, svC5)] [rowC5] "x" .Departure 864000 = .ok [] ∧
    mapStops [rowC5] = .ok [stopC5] ∧
    mapLookup [(2, svC5)] stopC5.service_id = some svC5 ∧
    svC5.is_available (service_day_of stopC5 (dtDate 864000) .Departure) = true ∧
    stopC5.is_after_adjusted_time .Departure 864000 = true := by
  decide

/-- C5 amended: the board keeps exactly the mapped stop-events whose service
is available on the **arrival**-offset-based service-day (regardless of board
type) and which pass the horizon filter. -/
theorem C5_amended (services : ServiceMap) (rows : List StopRow)
    (stop_id : String) (bt : BoardType) (dt : Int) (l : List Stop)
    (hne : stop_id.isEmpty = false)
    (h : fetch_stops services rows stop_id bt dt = .ok l) :
    ∃ ms, mapStops rows = .ok ms ∧
      List.Perm l (ms.filter (fun s =>
        (match mapLookup services s.service_id with
         | some sv => sv.is_available (dtDate dt - durNumDays s.arrival_time)
         | none => false) && s.is_after_adjusted_time bt dt)) := by
  obtain ⟨ms, h1, h2, h3⟩ := fetch_stops_ok hne h
  refine ⟨ms, h1, ?_⟩
  have hperm : List.Perm l (ms.filter (keepStop services bt dt)) := by
    rw [h3]
    exact List.perm_insertionSort _ _
  refine hperm.trans ?_
  have hcong : ∀ x ∈ ms, keepStop services bt dt x =
      ((match mapLookup services x.service_id with
        | some sv => sv.is_available (dtDate dt - durNumDays x.arrival_time)
        | none => false) && x.is_after_adjusted_time bt dt) := by
    intro x hx
    unfold keepStop
    cases hl : mapLookup services x.service_id with
    | none => simp
    | some sv => simp
  rw [List.filter_congr hcong]

/-- Witness for the amended C5 at the concrete board of the
counterexample. -/
theorem C5_witness :
    ∃ ms, mapStops [rowC5] = .ok ms ∧
      List.Perm ([] : List Stop) (ms.filter (fun s =>
        (match mapLookup [(2, svC5)] s.service_id with
         | some sv => sv.is_available (dtDate 864000 - durNumDays s.arrival_time)
         | none => false) && s.is_after_adjusted_time .Departure 864000)) :=
  C5_amended [(2, svC5)] [rowC5] "x" .Departure 864000 [] (by decide) (by decide)

/-- C6: a stop-event referencing the absent service id 7 makes the board
operation panic on the `unwrap()` of the failed index lookup
(`src/db/mod.rs:92`) instead of returning a typed error or dropping the
event. -/
theorem C6_missing_service_panics :
    fetch_stops [(1, svC6)] [rowC6] "8000001" .Departure 0 =
      .error (Panic.noServiceEntry 7) := by
  decide

/-- C7 as stated is false for stop-event rows: a malformed arrival time
string makes the board operation panic on the `unwrap()` of the failed parse
(`src/db/mod.rs:115`), rather than fail with a typed `ParseError`. -/
theorem C7_counterexample :
    fetch_stops [(1, svC6)] [rowC7] "x" .Departure 0 =
      .error (Panic.unwrapErr (ParseError.badTime "26:0a:00")) := by
  decide

/-- C8: an empty stop identifier short-circuits to an empty successful
result, for every row source, board type and reference timestamp (the rows
are never consulted). -/
theorem C8_empty_short_circuit (services : ServiceMap) (rows : List StopRow)
    (bt : BoardType) (dt : Int) :
    fetch_stops services rows "" bt dt = .ok [] := rfl

/-! ## Service-index construction -/

/-- Looking a key up after appending a fresh binding. -/
theorem mapLookup_append_single (m : ServiceMap) (k : Nat) (v : Service) (sid : Nat) :
    mapLookup (m ++ [(k, v)]) sid =
      match mapLookup m sid with
      | some sv => some sv
      | none => if k = sid then some v else none := by
  induction m with
  | nil => simp [mapLookup]
  | cons p rest ih =>
      by_cases hp : p.1 = sid
      · simp [mapLookup, hp]
      · simp [mapLookup, hp, ih]

/-- Looking a key up after modifying the entry of another (or the same)
key. -/
theorem mapLookup_mapModify (m : ServiceMap) (k : Nat) (f : Service → Service) (sid : Nat) :
    mapLookup (mapModify m k f) sid =
      if k = sid then (mapLookup m sid).map f else mapLookup m sid := by
  induction m with
  | nil => simp [mapModify, mapLookup]
  | cons p rest ih =>
      by_cases hpk : p.1 = k
      · rw [show mapModify (p :: rest) k f = (p.1, f p.2) :: rest from by
            simp [mapModify, hpk]]
        by_cases hps : p.1 = sid
        · have hks : k = sid := hpk.symm.trans hps
          simp [mapLookup, hps, hks]
        · have hks : ¬ k = sid := fun hh => hps (hpk.trans hh)
          simp [mapLookup, hps, hks]
      · rw [show mapModify (p :: rest) k f = p :: mapModify rest k f from by
            simp [mapModify, hpk]]
        by_cases hps : p.1 = sid
        · have hks : ¬ k = sid := fun hh => hpk (hps.trans hh.symm)
          simp [mapLookup, hps, hks]
        · simp [mapLookup, hps, ih]

/-- A freshly built service carries no exceptions yet. -/
theorem baseService_exceptions {r : ServiceRow} {sv : Service}
    (h : baseService r = .ok sv) : sv.exceptions = [] := by
  unfold baseService at h
  cases h1 : str_to_date r.start_date with
  | error e => rw [h1] at h; cases h
  | ok sd =>
      rw [h1] at h
      dsimp only [] at h
      cases h2 : str_to_date r.end_date with
      | error e => rw [h2] at h; cases h
      | ok ed =>
          rw [h2] at h
          dsimp only [] at h
          cases h
          rfl

/-- Appending a binding of a different key does not change a lookup. -/
theorem mapLookup_append_single_ne (m : ServiceMap) (k : Nat) (v : Service) (sid : Nat)
    (h : ¬ k = sid) : mapLookup (m ++ [(k, v)]) sid = mapLookup m sid := by
  rw [mapLookup_append_single]
  cases mapLookup m sid <;> simp [h]

/-- Appending a binding of an absent key makes its lookup hit it. -/
theorem mapLookup_append_single_none (m : ServiceMap) (k : Nat) (v : Service)
    (h : mapLookup m k = none) : mapLookup (m ++ [(k, v)]) k = some v := by
  rw [mapLookup_append_single, h]
  simp

/-- Appending any binding preserves lookups that already succeed. -/
theorem mapLookup_append_single_some (m : ServiceMap) (k : Nat) (v sv : Service)
    (sid : Nat) (h : mapLookup m sid = some sv) :
    mapLookup (m ++ [(k, v)]) sid = some sv := by
  rw [mapLookup_append_single, h]

/-- Pushing an exception onto another key's entry does not change a
lookup. -/
theorem mapLookup_pushException_ne (m : ServiceMap) (k sid : Nat)
    (exc : Option ServiceException) (h : ¬ k = sid) :
    mapLookup (pushException m k exc) sid = mapLookup m sid := by
  cases exc <;> simp [pushException, mapLookup_mapModify, h]

/-- Pushing an exception onto a present entry appends it to that entry's
list. -/
theorem mapLookup_pushException_some (m : ServiceMap) (k : Nat)
    (e : ServiceException) (sv : Service) (h : mapLookup m k = some sv) :
    mapLookup (pushException m k (some e)) k =
      some { sv with exceptions := sv.exceptions ++ [e] } := by
  simp [pushException, mapLookup_mapModify, h]

/-- A successful `rowException` read is either a NULL column or one parsed
exception. -/
theorem rowException_ok {r : ServiceRow} {exc : Option ServiceException}
    (h : rowException r = .ok exc) :
    (r.service_date = none ∧ exc = none) ∨
    (∃ x d, r.service_date = some x ∧ str_to_date x = .ok d ∧
      exc = some ⟨d, r.exception_type⟩) := by
  unfold rowException at h
  cases hd : r.service_date with
  | none => rw [hd] at h; cases h; exact .inl ⟨rfl, rfl⟩
  | some x =>
      rw [hd] at h
      dsimp only [] at h
      cases hp : str_to_date x with
      | error e => rw [hp] at h; cases h
      | ok d => rw [hp] at h; cases h; exact .inr ⟨x, d, rfl, hp, rfl⟩

/-- A successful `insertIfNew` either skipped a known id or appended the
parsed base service. -/
theorem insertIfNew_ok {m : ServiceMap} {r : ServiceRow} {m1 : ServiceMap}
    (h : insertIfNew m r = .ok m1) :
    (mapContains m r.service_id = true ∧ m1 = m) ∨
    (mapContains m r.service_id = false ∧
      ∃ sv, baseService r = .ok sv ∧ m1 = m ++ [(r.service_id, sv)]) := by
  unfold insertIfNew at h
  cases hc : mapContains m r.service_id with
  | true =>
      rw [hc] at h
      simp only [if_true] at h
      cases h
      exact .inl ⟨rfl, rfl⟩
  | false =>
      rw [hc] at h
      simp only [Bool.false_eq_true, if_false] at h
      cases hb : baseService r with
      | error e => rw [hb] at h; cases h
      | ok sv =>
          rw [hb] at h
          cases h
          exact .inr ⟨rfl, sv, rfl, rfl⟩

/-- A successful loop iteration decomposes into its three stages. -/
theorem applyServiceRow_ok {m0 : ServiceMap} {r : ServiceRow} {m2 : ServiceMap}
    (h : applyServiceRow m0 r = .ok m2) :
    ∃ exc m1, rowException r = .ok exc ∧ insertIfNew m0 r = .ok m1 ∧
      m2 = pushException m1 r.service_id exc := by
  unfold applyServiceRow at h
  cases he : rowException r with
  | error e => rw [he] at h; cases h
  | ok exc =>
      rw [he] at h
      dsimp only [] at h
      cases hi : insertIfNew m0 r with
      | error e => rw [hi] at h; cases h
      | ok m1 =>
          rw [hi] at h
          dsimp only [] at h
          cases h
          exact ⟨exc, m1, rfl, rfl, rfl⟩

/-- The row-loop invariant: what the final index holds for a given service
id, as a function of what the accumulator already held and of the remaining
rows.  A pre-existing entry only accumulates this id's exceptions; an absent
id stays absent when no row carries it, and otherwise is founded by its first
row and accumulates this id's exceptions in row order. -/
theorem fetchServicesGo_lookup (sid : Nat) (rows : List ServiceRow) :
    ∀ (m0 m : ServiceMap), fetchServicesGo m0 rows = .ok m →
      ((∀ sv0, mapLookup m0 sid = some sv0 →
          ∃ es, excsFor sid rows = .ok es ∧
            mapLookup m sid = some { sv0 with exceptions := sv0.exceptions ++ es }) ∧
       (mapLookup m0 sid = none → firstRowFor sid rows = none →
          mapLookup m sid = none) ∧
       (∀ r, mapLookup m0 sid = none → firstRowFor sid rows = some r →
          ∃ sv es, baseService r = .ok sv ∧ excsFor sid rows = .ok es ∧
            mapLookup m sid = some { sv with exceptions := es })) := by
  induction rows with
  | nil =>
      intro m0 m h
      simp only [fetchServicesGo] at h
      cases h
      refine ⟨?_, ?_, ?_⟩
      · intro sv0 h0
        refine ⟨[], rfl, ?_⟩
        rw [h0]
        simp
      · intro h0 _
        exact h0
      · intro r h0 hr
        simp [firstRowFor] at hr
  | cons r rest ih =>
      intro m0 m h
      simp only [fetchServicesGo] at h
      cases ha : applyServiceRow m0 r with
      | error e => rw [ha] at h; cases h
      | ok m1 =>
          rw [ha] at h
          dsimp only [] at h
          obtain ⟨exc, mb, hre, hins, hm1⟩ := applyServiceRow_ok ha
          rw [hm1] at h
          obtain ⟨ih1, ih2, ih3⟩ := ih _ m h
          by_cases hrs : r.service_id = sid
          · have hfirst : firstRowFor sid (r :: rest) = some r := by
              simp [firstRowFor, List.find?_cons_of_pos, hrs]
            refine ⟨?_, ?_, ?_⟩
            · intro sv0 h0
              have hcont : mapContains m0 r.service_id = true := by
                simp [mapContains, hrs, h0]
              rcases insertIfNew_ok hins with ⟨_, hmb⟩ | ⟨hcf, _⟩
              · rcases rowException_ok hre with ⟨hdnone, hexc⟩ | ⟨x, d, hdx, hdp, hexc⟩
                · obtain ⟨es, hes, hm⟩ := ih1 sv0 (by
                    simp [hexc, pushException, hmb, h0])
                  refine ⟨es, ?_, hm⟩
                  simp [excsFor, hrs, hdnone, hes]
                · obtain ⟨es, hes, hm⟩ := ih1 _ (by
                    rw [hexc, hmb, ← hrs] at *
                    exact mapLookup_pushException_some m0 r.service_id _ sv0 h0)
                  refine ⟨⟨d, r.exception_type⟩ :: es, ?_, ?_⟩
                  · simp [excsFor, hrs, hdx, hdp, hes]
                  · rw [hm]
                    simp [List.append_assoc]
              · rw [hcont] at hcf
                cases hcf
            · intro _ hnone
              rw [hfirst] at hnone
              cases hnone
            · intro rr h0 hrr
              rw [hfirst] at hrr
              cases hrr
              have hcont : mapContains m0 r.service_id = false := by
                simp [mapContains, hrs, h0]
              rcases insertIfNew_ok hins with ⟨hct, _⟩ | ⟨_, sv, hbase, hmb⟩
              · rw [hcont] at hct
                cases hct
              · have hsvex : sv.exceptions = [] := baseService_exceptions hbase
                have hlb : mapLookup mb sid = some sv := by
                  rw [hmb, hrs]
                  exact mapLookup_append_single_none m0 sid sv (hrs ▸ h0)
                rcases rowException_ok hre with ⟨hdnone, hexc⟩ | ⟨x, d, hdx, hdp, hexc⟩
                · obtain ⟨es, hes, hm⟩ := ih1 sv (by simp [hexc, pushException, hlb])
                  refine ⟨sv, es, hbase, ?_, ?_⟩
                  · simp [excsFor, hrs, hdnone, hes]
                  · rw [hm]
                    simp [hsvex]
                · obtain ⟨es, hes, hm⟩ := ih1 _ (by
                    rw [hexc, ← hrs]
                    exact mapLookup_pushException_some mb r.service_id _ sv
                      (by rw [hrs]; exact hlb))
                  refine ⟨sv, ⟨d, r.exception_type⟩ :: es, hbase, ?_, ?_⟩
                  · simp [excsFor, hrs, hdx, hdp, hes]
                  · rw [hm]
                    simp [hsvex]
          · have hfirst : firstRowFor sid (r :: rest) = firstRowFor sid rest := by
              simp only [firstRowFor]
              rw [List.find?_cons_of_neg _ (by simpa using hrs)]
            have hexcs : excsFor sid (r :: rest) = excsFor sid rest := by
              simp [excsFor, hrs]
            have hlook : mapLookup (pushException mb r.service_id exc) sid =
                mapLookup m0 sid := by
              rw [mapLookup_pushException_ne _ _ _ _ hrs]
              rcases insertIfNew_ok hins with ⟨_, hmb⟩ | ⟨_, sv, _, hmb⟩
              · rw [hmb]
              · rw [hmb, mapLookup_append_single_ne _ _ _ _ hrs]
            refine ⟨?_, ?_, ?_⟩
            · intro sv0 h0
              obtain ⟨es, hes, hm⟩ := ih1 sv0 (hlook.trans h0)
              refine ⟨es, ?_, hm⟩
              rw [hexcs]
              exact hes
            · intro h0 hnone
              rw [hfirst] at hnone
              exact ih2 (hlook.trans h0) hnone
            · intro rr h0 hrr
              rw [hfirst] at hrr
              obtain ⟨sv, es, hb, hes, hm⟩ := ih3 rr (hlook.trans h0) hrr
              refine ⟨sv, es, hb, ?_, hm⟩
              rw [hexcs]
              exact hes

/-- The invariant instantiated at the empty starting map of
`fetch_services`. -/
theorem fetchServices_lookup (rows : List ServiceRow) (m : ServiceMap) (sid : Nat)
    (h : fetch_services rows = .ok m) :
    (firstRowFor sid rows = none → mapLookup m sid = none) ∧
    (∀ r, firstRowFor sid rows = some r →
      ∃ sv es, baseService r = .ok sv ∧ excsFor sid rows = .ok es ∧
        mapLookup m sid = some { sv with exceptions := es }) := by
  obtain ⟨h1, h2, h3⟩ := fetchServicesGo_lookup sid rows [] m h
  exact ⟨h2 rfl, fun r hr => h3 r rfl hr⟩

/-- C9: on a successful run, each service id that occurs is bound to the
service built from its **first** row alone (base fields of later rows are
ignored), with exactly the exceptions of this id's rows whose exception
column is non-null, parsed in row-encounter order; ids with no row are
absent.  That rows with a NULL exception column contribute nothing and cause
no error is exercised by the witness, whose input holds such a row. -/
theorem C9_first_row_builds (rows : List ServiceRow) (m : ServiceMap) (sid : Nat)
    (h : fetch_services rows = .ok m) :
    (firstRowFor sid rows = none → mapLookup m sid = none) ∧
    (∀ r, firstRowFor sid rows = some r →
      ∃ sv es, baseService r = .ok sv ∧ excsFor sid rows = .ok es ∧
        mapLookup m sid = some { sv with exceptions := es }) :=
  fetchServices_lookup rows m sid h

/-- Witness for C9 on three concrete rows: id 1 appears twice — first with a
NULL exception column, then with different base fields and one exception. -/
theorem C9_witness :
    (firstRowFor 1 rowsC9 = none → mapLookup mC9 1 = none) ∧
    (∀ r, firstRowFor 1 rowsC9 = some r →
      ∃ sv es, baseService r = .ok sv ∧ excsFor 1 rowsC9 = .ok es ∧
        mapLookup mC9 1 = some { sv with exceptions := es }) :=
  C9_first_row_builds rowsC9 mC9 1 (by decide)

/-- A date-parse failure always carries the offending string. -/
theorem str_to_date_error (s : String) (e : ParseError)
    (h : str_to_date s = .error e) : e = .badDate s := by
  unfold str_to_date at h
  split at h
  · cases h
  · cases h
    rfl

/-- A time-parse failure always carries the offending string. -/
theorem str_to_dur_error (s : String) (e : ParseError)
    (h : str_to_dur s = .error e) : e = .badTime s := by
  unfold str_to_dur at h
  split at h
  · split at h
    · cases h
    · cases h
      rfl
  · cases h
    rfl

/-- A successful mapping pass parsed both time strings of every row. -/
theorem mapStops_parses {rows : List StopRow} {ms : List Stop}
    (h : mapStops rows = .ok ms) :
    ∀ row ∈ rows, (∃ a, str_to_dur row.arrival_time = .ok a) ∧
      ∃ b, str_to_dur row.departure_time = .ok b := by
  induction rows generalizing ms with
  | nil => intro row hr; cases hr
  | cons r rest ih =>
      intro row hr
      simp only [mapStops] at h
      cases hm : map_stop r with
      | error p => rw [hm] at h; cases h
      | ok s =>
          rw [hm] at h
          dsimp only [] at h
          cases hrest : mapStops rest with
          | error p => rw [hrest] at h; cases h
          | ok l =>
              rcases List.mem_cons.mp hr with rfl | hr2
              · unfold map_stop at hm
                cases ha : str_to_dur row.arrival_time with
                | error e => rw [ha] at hm; cases hm
                | ok a =>
                    rw [ha] at hm
                    dsimp only [] at hm
                    cases hd : str_to_dur row.departure_time with
                    | error e => rw [hd] at hm; cases hm
                    | ok d => exact ⟨⟨a, rfl⟩, ⟨d, rfl⟩⟩
              · exact ih hrest row hr2

/-- A successful index build parsed the exception date of every row whose
exception column is non-null. -/
theorem fetchServicesGo_exc_parses :
    ∀ (rows : List ServiceRow) (m0 m : ServiceMap),
      fetchServicesGo m0 rows = .ok m →
      ∀ r ∈ rows, ∀ x, r.service_date = some x → ∃ d, str_to_date x = .ok d := by
  intro rows
  induction rows with
  | nil => intro m0 m h r hr; cases hr
  | cons r rest ih =>
      intro m0 m h rr hrr x hx
      simp only [fetchServicesGo] at h
      cases ha : applyServiceRow m0 r with
      | error e => rw [ha] at h; cases h
      | ok m1 =>
          rw [ha] at h
          dsimp only [] at h
          rcases List.mem_cons.mp hrr with rfl | hr2
          · obtain ⟨exc, mb, hre, _, _⟩ := applyServiceRow_ok ha
            rcases rowException_ok hre with ⟨hdnone, _⟩ | ⟨x2, d, hdx, hdp, _⟩
            · rw [hx] at hdnone
              cases hdnone
            · rw [hx] at hdx
              cases hdx
              exact ⟨d, hdp⟩
          · exact ih m1 m h rr hr2 x hx

/-- C7 amended: success of the index build means every exception date string
and every first row's base date strings were parsed (so a malformed one
aborts startup), a parse failure is a typed `ParseError` carrying the
offending string, and success of a non-empty board query means every time
string of its rows was parsed; but a malformed time string at row-mapping
time makes `map_stop` panic on the `unwrap()` — it never returns a typed
error and never substitutes a default. -/
theorem C7_amended :
    (∀ (rows : List ServiceRow) (m : ServiceMap), fetch_services rows = .ok m →
      ∀ r ∈ rows, ∀ x, r.service_date = some x → ∃ d, str_to_date x = .ok d) ∧
    (∀ (rows : List ServiceRow) (m : ServiceMap), fetch_services rows = .ok m →
      ∀ r, firstRowFor r.service_id rows = some r → ∃ sv, baseService r = .ok sv) ∧
    (∀ s e, str_to_date s = .error e → e = .badDate s) ∧
    (∀ s e, str_to_dur s = .error e → e = .badTime s) ∧
    (∀ (services : ServiceMap) (rows : List StopRow) (stop_id : String)
        (bt : BoardType) (dt : Int) (l : List Stop),
      stop_id.isEmpty = false → fetch_stops services rows stop_id bt dt = .ok l →
      ∀ row ∈ rows, (∃ a, str_to_dur row.arrival_time = .ok a) ∧
        ∃ b, str_to_dur row.departure_time = .ok b) ∧
    (∀ (row : StopRow) (e : ParseError), str_to_dur row.arrival_time = .error e →
      map_stop row = .error (Panic.unwrapErr e)) := by
  refine ⟨?_, ?_, str_to_date_error, str_to_dur_error, ?_, ?_⟩
  · intro rows m h
    exact fetchServicesGo_exc_parses rows [] m h
  · intro rows m h r hr
    obtain ⟨sv, es, hb, _, _⟩ := (fetchServices_lookup rows m r.service_id h).2 r hr
    exact ⟨sv, hb⟩
  · intro services rows stop_id bt dt l hne h
    obtain ⟨ms, h1, _, _⟩ := fetch_stops_ok hne h
    exact mapStops_parses h1
  · intro row e h
    unfold map_stop
    rw [h]

/-- Witness for the amended C7: a parsed exception date of a successful
build, parsed time strings of a successful board, and the concrete panic of
`map_stop` on a malformed arrival string. -/
theorem C7_witness :
    (∃ d, str_to_date "150" = .ok d) ∧
    ((∃ a, str_to_dur rowC2.arrival_time = .ok a) ∧
      ∃ b, str_to_dur rowC2.departure_time = .ok b) ∧
    map_stop rowC7 = .error (Panic.unwrapErr (ParseError.badTime "26:0a:00")) :=
  ⟨C7_amended.1 rowsC9 mC9 (by decide)
      ⟨1, false, false, false, false, false, true, true, "999", "998",
        some "150", .Removed⟩ (by decide) "150" rfl,
   C7_amended.2.2.2.2.1 [(1, svC2)] [rowC2] "x" .Departure 864000 [stopC2]
      (by decide) (by decide) rowC2 (by decide),
   C7_amended.2.2.2.2.2 rowC7 (ParseError.badTime "26:0a:00") (by decide)⟩

/-! ## Station search -/

/-- A left fold by `Nat.min` lands on its seed or on a list element. -/
theorem foldl_min_mem (t : List Nat) :
    ∀ i, t.foldl Nat.min i = i ∨ t.foldl Nat.min i ∈ t := by
  induction t with
  | nil => intro i; exact .inl rfl
  | cons j t ih =>
      intro i
      rw [List.foldl_cons]
      rcases ih (Nat.min i j) with h | h
      · rw [h]
        rcases min_choice i j with hm | hm
        · exact .inl hm
        · exact .inr (by rw [show Nat.min i j = j from hm]
                         exact List.mem_cons_self j t)
      · exact .inr (List.mem_cons_of_mem j h)

/-- A left fold by `Nat.min` bounds its seed and every list element. -/
theorem foldl_min_le (t : List Nat) :
    ∀ i, t.foldl Nat.min i ≤ i ∧ ∀ j ∈ t, t.foldl Nat.min i ≤ j := by
  induction t with
  | nil => intro i; exact ⟨Nat.le_refl i, fun j hj => absurd hj (List.not_mem_nil j)⟩
  | cons j t ih =>
      intro i
      rw [List.foldl_cons]
      obtain ⟨h1, h2⟩ := ih (Nat.min i j)
      refine ⟨le_trans h1 (Nat.min_le_left i j), ?_⟩
      intro x hx
      rcases List.mem_cons.mp hx with rfl | hx
      · exact le_trans h1 (Nat.min_le_right i x)
      · exact h2 x hx

/-- `minId` of a non-empty group is a member and a lower bound. -/
theorem minId_spec (ids : List Nat) (hne : ids ≠ []) :
    minId ids ∈ ids ∧ ∀ i ∈ ids, minId ids ≤ i := by
  cases ids with
  | nil => cases hne rfl
  | cons i t =>
      constructor
      · rcases foldl_min_mem t i with h | h
        · rw [minId, h]
          exact List.mem_cons_self i t
        · exact List.mem_cons_of_mem _ h
      · intro x hx
        obtain ⟨h1, h2⟩ := foldl_min_le t i
        rcases List.mem_cons.mp hx with rfl | hx
        · exact h1
        · exact h2 x hx

/-- A member that bounds the whole group below is its `minId`. -/
theorem minId_unique (ids : List Nat) (x : Nat) (hmem : x ∈ ids)
    (hlb : ∀ i ∈ ids, x ≤ i) : x = minId ids := by
  have hne : ids ≠ [] := List.ne_nil_of_mem hmem
  obtain ⟨h1, h2⟩ := minId_spec ids hne
  exact Nat.le_antisymm (hlb _ h1) (h2 x hmem)

/-- Membership in the station query result: a name of a surviving row paired
with the least id of the surviving rows of that name. -/
theorem mem_fetch_stations (input : String) (tbl : List StopTableRow) (st : Station) :
    st ∈ fetch_stations input tbl ↔
      (∃ r ∈ tbl, station_query_pred input r.name = true ∧ r.name = st.name) ∧
      st.stop_id = minId (idsFor st.name
        (tbl.filter (fun r => station_query_pred input r.name))) := by
  unfold fetch_stations
  constructor
  · intro hst
    obtain ⟨n, hn, hstn⟩ := List.mem_map.mp hst
    rw [List.mem_dedup] at hn
    obtain ⟨r, hr, hrn⟩ := List.mem_map.mp hn
    obtain ⟨hrtbl, hrpred⟩ := List.mem_filter.mp hr
    subst hstn
    exact ⟨⟨r, hrtbl, hrpred, hrn⟩, rfl⟩
  · rintro ⟨⟨r, hrtbl, hpred, hname⟩, hmin⟩
    apply List.mem_map.mpr
    refine ⟨st.name, ?_, ?_⟩
    · rw [List.mem_dedup]
      exact List.mem_map.mpr ⟨r, List.mem_filter.mpr ⟨hrtbl, hpred⟩, hname⟩
    · cases st with
      | mk id nm => simpa using hmin.symm

/-- Since the WHERE clause tests only the name, the group of a matching name
is the same before and after filtering. -/
theorem idsFor_filter_pred (n : List Char) (input : String) (tbl : List StopTableRow)
    (hp : station_query_pred input n = true) :
    idsFor n (tbl.filter (fun r => station_query_pred input r.name)) = idsFor n tbl := by
  unfold idsFor
  rw [List.filter_filter]
  congr 1
  apply List.filter_congr
  intro r hr
  by_cases hrn : r.name = n
  · simp [hrn, hp]
  · simp [hrn]

/-- C10: with empty input, `fetch_stations` does not short-circuit — it
returns exactly one station per distinct name ending in `Hbf` or
`Hauptbahnhof` occurring in the table, carrying the minimum stop id of that
name; with non-empty input, every returned station's name contains the input
as a substring. -/
theorem C10_station_search (tbl : List StopTableRow) (input : String) (st : Station) :
    (st ∈ fetch_stations "" tbl ↔
      (List.IsSuffix "Hbf".toList st.name ∨
        List.IsSuffix "Hauptbahnhof".toList st.name) ∧
      (∃ r ∈ tbl, r.name = st.name) ∧
      st.stop_id ∈ idsFor st.name tbl ∧ ∀ i ∈ idsFor st.name tbl, st.stop_id ≤ i) ∧
    (input.isEmpty = false → ∀ s ∈ fetch_stations input tbl,
      List.IsInfix input.toList s.name) := by
  constructor
  · rw [mem_fetch_stations]
    constructor
    · rintro ⟨⟨r, hrtbl, hpred, hname⟩, hmin⟩
      have hpredst : station_query_pred "" st.name = true := by
        rw [← hname]
        exact hpred
      have hsuf : List.IsSuffix "Hbf".toList st.name ∨
          List.IsSuffix "Hauptbahnhof".toList st.name := by
        have hb := hpredst
        unfold station_query_pred at hb
        rw [show ("" : String).isEmpty = true from rfl] at hb
        simp only [if_true] at hb
        rw [Bool.or_eq_true] at hb
        rcases hb with h | h
        · exact .inl (List.isSuffixOf_iff_suffix.mp h)
        · exact .inr (List.isSuffixOf_iff_suffix.mp h)
      have hmem : r.stop_id ∈ idsFor st.name tbl := by
        unfold idsFor
        exact List.mem_map.mpr ⟨r, List.mem_filter.mpr ⟨hrtbl, by simp [hname]⟩, rfl⟩
      have hne : idsFor st.name tbl ≠ [] := List.ne_nil_of_mem hmem
      rw [idsFor_filter_pred st.name "" tbl hpredst] at hmin
      obtain ⟨hm1, hm2⟩ := minId_spec _ hne
      rw [← hmin] at hm1 hm2
      exact ⟨hsuf, ⟨r, hrtbl, hname⟩, hm1, hm2⟩
    · rintro ⟨hsuf, ⟨r, hrtbl, hname⟩, hmem, hlb⟩
      have hpredst : station_query_pred "" st.name = true := by
        unfold station_query_pred
        rw [show ("" : String).isEmpty = true from rfl]
        simp only [if_true]
        rw [Bool.or_eq_true]
        rcases hsuf with h | h
        · exact .inl (List.isSuffixOf_iff_suffix.mpr h)
        · exact .inr (List.isSuffixOf_iff_suffix.mpr h)
      refine ⟨⟨r, hrtbl, ?_, hname⟩, ?_⟩
      · rw [hname]
        exact hpredst
      · rw [idsFor_filter_pred st.name "" tbl hpredst]
        exact minId_unique _ _ hmem hlb
  · intro hne s hs
    obtain ⟨⟨r, hrtbl, hpred, hname⟩, _⟩ := (mem_fetch_stations input tbl s).mp hs
    unfold station_query_pred at hpred
    simp only [hne, Bool.false_eq_true, if_false] at hpred
    rw [← hname]
    exact of_decide_eq_true hpred

/-- Witness for C10: `tblW` holds the name `A Hbf` twice (ids 5 and 3) — the
empty input returns it with id 3, and input `A` only returns names containing
`A`. -/
theorem C10_witness :
    (⟨3, "A Hbf".toList⟩ : Station) ∈ fetch_stations "" tblW ∧
    List.IsInfix "A".toList ("A Hbf".toList) :=
  ⟨((C10_station_search tblW "A" ⟨3, "A Hbf".toList⟩).1).mpr
      ⟨by decide, ⟨⟨5, "A Hbf".toList⟩, by decide, by decide⟩, by decide, by decide⟩,
   (C10_station_search tblW "A" ⟨3, "A Hbf".toList⟩).2 (by decide)
     ⟨3, "A Hbf".toList⟩ (by decide)⟩

end GTFS
